import Mathlib

/-
Verification of dy-weekly-generator (src/src/weekly.rs).

The Rust module defines an `Entry` record parsed from YAML fragments, a
`Weekly` collection keyed by entry name that merges same-named entries,
and Markdown rendering to a file.

Shallow embedding conventions:
- The external YAML library (yaml_rust) is modelled by the inductive
  `Yaml` below; `YamlLoader::load_from_str(s).ok()` is abstracted as an
  `Option (List Yaml)` input (the already-decoded document list, `none`
  when decoding failed).
- The `HashMap<String, Entry>` is modelled as an association list.
- The output `File` with fallible writes is modelled by `Sink`: a buffer
  plus a write counter and a per-write success predicate `okAt`.  A
  function performing fallible writes returns the final sink state
  together with `Option Error` (`none` = success), so partial output
  written before a failure stays observable (no rollback, as in a real
  file).
- `assert_eq!` in `Entry::merge` is modelled by `Option`: `none` means
  the assertion fired (panic).
-/

namespace WeeklyGen

/-- Error enum from weekly.rs (the hyper error payload of RequestErr is
irrelevant to the core and dropped). -/
inductive Error where
  | ConfigErr : Error
  | RequestErr : Error
  | FetchErr : Error
  | JsonParseErr : Error
  | IOErr : Error
deriving DecidableEq

/-- EntryType enum from weekly.rs. -/
inductive EntryType where
  | Draft : EntryType
  | Topic : EntryType
deriving DecidableEq

/-- Entry struct from weekly.rs. -/
structure Entry where
  name : String
  kind : EntryType
  link : Option String
  description : Option String
  quote : Option String
  cc : List String
deriving DecidableEq

/-- Model of the yaml_rust Yaml value type (Real is irrelevant here and
omitted; map keys are modelled as strings since the code only indexes by
string keys). -/
inductive Yaml where
  | ystr : String → Yaml
  | yint : Int → Yaml
  | ybool : Bool → Yaml
  | yarr : List Yaml → Yaml
  | ymap : List (String × Yaml) → Yaml
  | ynull : Yaml
  | ybad : Yaml

/-- yaml_rust indexing `doc[key]`: hash lookup, BadValue when the key is
missing or the value is not a hash. -/
def Yaml.index (doc : Yaml) (key : String) : Yaml :=
  match doc with
  | Yaml.ymap kvs =>
    match kvs.lookup key with
    | some v => v
    | none => Yaml.ybad
  | _ => Yaml.ybad

/-- yaml_rust as_str: Some only for string nodes. -/
def Yaml.as_str : Yaml → Option String
  | Yaml.ystr s => some s
  | _ => none

/-- yaml_rust as_vec: Some only for array nodes. -/
def Yaml.as_vec : Yaml → Option (List Yaml)
  | Yaml.yarr xs => some xs
  | _ => none

/-- Body of Entry::parse applied to the first decoded document. -/
def Entry.parseDoc (doc : Yaml) : Option Entry :=
  let name := (doc.index "name").as_str
  let kind : Option EntryType :=
    match (doc.index "type").as_str with
    | some t =>
      if t = "draft" then some EntryType.Draft
      else if t = "topic" then some EntryType.Topic
      else none
    | none => some EntryType.Draft
  let link := (doc.index "link").as_str
  let description := (doc.index "description").as_str
  let quote := (doc.index "quote").as_str
  let cc := ((doc.index "cc").as_vec.getD []).filterMap Yaml.as_str
  match name, kind with
  | some name, some kind =>
    some { name := name, kind := kind, link := link,
           description := description, quote := quote, cc := cc }
  | _, _ => none

/-- Entry::parse.  The argument is the result of
`YamlLoader::load_from_str(yaml).ok()` (none = decode failure); the code
takes the first document and parses it. -/
def Entry.parse (docs : Option (List Yaml)) : Option Entry :=
  docs.bind (fun ds => ds.head?.bind Entry.parseDoc)

/-- Entry::field_append, as a pure function on the two option slots:
returns the final contents of (a, b).  The Rust code moves the content of b
out (b always ends as None) and appends it to a, or moves it into a when
a was None. -/
def Entry.field_append (a b : Option String) : Option String × Option String :=
  match b with
  | some s2 =>
    match a with
    | some s1 => (some (s1 ++ s2), none)
    | none => (some s2, none)
  | none => (a, none)

/-- Pure combine function, modelled from the spec (section 9): returns b
if a is absent, a if b is absent, else the concatenation a ++ b.  Kept
separate from field_append for the refinement comparison. -/
def combineSpec (a b : Option String) : Option String :=
  match a, b with
  | none, b => b
  | some x, none => some x
  | some x, some y => some (x ++ y)

/-- Body of Entry::merge after the assert_eq: kind overwritten, the
three option fields appended, cc extended. -/
def Entry.merge (self other : Entry) : Entry :=
  { name := self.name
    kind := other.kind
    link := (Entry.field_append self.link other.link).1
    description := (Entry.field_append self.description other.description).1
    quote := (Entry.field_append self.quote other.quote).1
    cc := self.cc ++ other.cc }

/-- Entry::merge with its assert_eq!(self.name, other.name) modelled:
none means the assertion fired (panic). -/
def Entry.mergeChecked (self other : Entry) : Option Entry :=
  if self.name = other.name then some (Entry.merge self other) else none

/-- Model of a writable file: what has been written so far, a write
counter, and which write attempts succeed. -/
structure Sink where
  okAt : Nat → Bool
  idx : Nat
  buf : String

/-- Perform a sequence of fallible writes: each chunk is appended when
the current write succeeds; the first failing write stops everything and
yields IOErr, leaving earlier output in place. -/
def writeAll (s : Sink) : List String → Sink × Option Error
  | [] => (s, none)
  | c :: cs =>
    if s.okAt s.idx then
      writeAll { s with idx := s.idx + 1, buf := s.buf ++ c } cs
    else
      (s, some Error.IOErr)

/-- Rust str::lines, by recursion over the characters: lines are
terminated by \n or \r\n (the \r is stripped only together with a \n);
the final line terminator is optional, so a trailing newline yields no
extra empty line.  The accumulator holds the current line reversed. -/
def linesGo : List Char → List Char → List String
  | acc, [] => if acc.isEmpty then [] else [String.mk acc.reverse]
  | acc, c :: rest =>
    if c = Char.ofNat 10 then
      let acc2 :=
        match acc with
        | r :: t => if r = Char.ofNat 13 then t else acc
        | [] => acc
      String.mk acc2.reverse :: linesGo [] rest
    else
      linesGo (c :: acc) rest

/-- Rust str::lines on a String. -/
def rustLines (s : String) : List String :=
  linesGo [] s.data

/-- The sequence of chunks Entry::render writes, in order: "- ", then
the name (linked when link is present), then ", description\n" or "\n",
then one " > line\n" per quote line, then the cc credit line when cc is
non-empty. -/
def Entry.writes (e : Entry) : List String :=
  ["- "]
  ++ [match e.link with
      | some link => "[" ++ e.name ++ "](" ++ link ++ ")"
      | none => e.name]
  ++ [match e.description with
      | some desc => ", " ++ desc ++ "\n"
      | none => "\n"]
  ++ (match e.quote with
      | some q => (rustLines q).map (fun l => " > " ++ l ++ "\n")
      | none => [])
  ++ (if e.cc.length > 0 then
        [String.intercalate ", "
          (e.cc.map (fun p => "[@" ++ p ++ "][" ++ p ++ "]")) ++ "\n"]
      else [])

/-- Entry::render: performs the write sequence on the sink, propagating
the first I/O failure. -/
def Entry.render (e : Entry) (s : Sink) : Sink × Option Error :=
  writeAll s e.writes

/-- The Weekly collection: HashMap<String, Entry> modelled as an
association list. -/
abbrev Weekly := List (String × Entry)

/-- Weekly::new. -/
def Weekly.new : Weekly := []

/-- HashMap get_mut + in-place merge: replace the value stored at key k. -/
def Weekly.update (w : Weekly) (k : String) (v : Entry) : Weekly :=
  w.map (fun p => if p.1 = k then (k, v) else p)

/-- Weekly::parse: parse the fragment; on no entry do nothing; if the
name is already present merge into the stored entry (none = the merge
assertion panicked), otherwise insert.  As for Entry.parse, the argument
is the decoded document list. -/
def Weekly.parse (w : Weekly) (docs : Option (List Yaml)) : Option Weekly :=
  match Entry.parse docs with
  | some e =>
    match w.lookup e.name with
    | some ent => (Entry.mergeChecked ent e).map (fun m => Weekly.update w e.name m)
    | none => some ((e.name, e) :: w)
  | none => some w

/-- Weekly::render: render each stored entry in turn, stopping at the
first I/O failure. -/
def Weekly.render (w : Weekly) (s : Sink) : Sink × Option Error :=
  match w with
  | [] => (s, none)
  | (_, e) :: rest =>
    match Entry.render e s with
    | (s', none) => Weekly.render rest s'
    | (s', some err) => (s', some err)

/-- The flattened chunk sequence Weekly::render attempts to write. -/
def Weekly.allWrites (w : Weekly) : List String :=
  (w.map (fun p => p.2.writes)).flatten

/-- Weekly states reachable from Weekly::new by successful (non
panicking) Weekly::parse calls. -/
inductive Weekly.Reachable : Weekly → Prop where
  | new : Weekly.Reachable Weekly.new
  | step : ∀ (w : Weekly) (docs : Option (List Yaml)) (w' : Weekly),
      Weekly.Reachable w → Weekly.parse w docs = some w' → Weekly.Reachable w'

/-- C1: Entry::field_append leaves combine(a, b) in the first slot, where
combine(a, b) is b if a is absent, a if b is absent, and the raw
concatenation a ++ b otherwise. -/
theorem field_append_refines_combine (a b : Option String) :
    (Entry.field_append a b).1 = combineSpec a b := by
  cases a <;> cases b <;> rfl

/-- C3: type dispatch in Entry::parse: a string "draft" gives kind Draft,
"topic" gives Topic, any other string rejects the whole fragment even
with a valid name, and a fragment with a string name and no type field at
all parses successfully with kind Draft. -/
theorem parse_type_dispatch (doc : Yaml) :
    (∀ t, (doc.index "type").as_str = some t →
      (t = "draft" → ∀ e, Entry.parse (some [doc]) = some e → e.kind = EntryType.Draft) ∧
      (t = "topic" → ∀ e, Entry.parse (some [doc]) = some e → e.kind = EntryType.Topic) ∧
      (t ≠ "draft" → t ≠ "topic" → Entry.parse (some [doc]) = none)) ∧
    (∀ kvs nm, doc = Yaml.ymap kvs → kvs.lookup "type" = none →
      (doc.index "name").as_str = some nm →
      Entry.parse (some [doc]) =
        some { name := nm, kind := EntryType.Draft,
               link := (doc.index "link").as_str,
               description := (doc.index "description").as_str,
               quote := (doc.index "quote").as_str,
               cc := ((doc.index "cc").as_vec.getD []).filterMap Yaml.as_str }) := by
  have hp : Entry.parse (some [doc]) = Entry.parseDoc doc := rfl
  constructor
  · intro t ht
    refine ⟨?_, ?_, ?_⟩
    · rintro rfl e he
      rw [hp] at he
      simp only [Entry.parseDoc, ht] at he
      cases hn : (doc.index "name").as_str with
      | none => rw [hn] at he; simp at he
      | some nm =>
        rw [hn] at he
        simp at he
        rw [← he]
    · rintro rfl e he
      rw [hp] at he
      simp only [Entry.parseDoc, ht] at he
      cases hn : (doc.index "name").as_str with
      | none => rw [hn] at he; simp at he
      | some nm =>
        rw [hn] at he
        simp at he
        rw [← he]
    · intro hd htp
      rw [hp]
      simp only [Entry.parseDoc, ht, if_neg hd, if_neg htp]
      cases hn : (doc.index "name").as_str <;> simp
  · rintro kvs nm rfl hlk hn
    have ht : ((Yaml.ymap kvs).index "type").as_str = none := by
      simp [Yaml.index, hlk, Yaml.as_str]
    rw [hp]
    simp only [Entry.parseDoc, ht, hn]

/-- C3 witness: a fragment with type "foo" and a valid name yields no
entry. -/
theorem parse_type_dispatch_witness :
    Entry.parse (some [Yaml.ymap [("name", Yaml.ystr "X"), ("type", Yaml.ystr "foo")]]) = none :=
  ((parse_type_dispatch (Yaml.ymap [("name", Yaml.ystr "X"), ("type", Yaml.ystr "foo")])).1
    "foo" rfl).2.2 (by decide) (by decide)

/-- C10: a fragment whose type field is present but not a string is not
rejected: with a valid string name it parses and the kind defaults to
Draft, the same as when type is absent. -/
theorem parse_nonstring_type_draft (kvs : List (String × Yaml)) (v : Yaml) (nm : String)
    (hv : kvs.lookup "type" = some v) (hs : ∀ s, v ≠ Yaml.ystr s)
    (hn : ((Yaml.ymap kvs).index "name").as_str = some nm) :
    Entry.parse (some [Yaml.ymap kvs]) =
      some { name := nm, kind := EntryType.Draft,
             link := ((Yaml.ymap kvs).index "link").as_str,
             description := ((Yaml.ymap kvs).index "description").as_str,
             quote := ((Yaml.ymap kvs).index "quote").as_str,
             cc := (((Yaml.ymap kvs).index "cc").as_vec.getD []).filterMap Yaml.as_str } := by
  have ht : ((Yaml.ymap kvs).index "type").as_str = none := by
    rw [Yaml.index, hv]
    cases v with
    | ystr s => exact absurd rfl (hs s)
    | _ => rfl
  have hp : Entry.parse (some [Yaml.ymap kvs]) = Entry.parseDoc (Yaml.ymap kvs) := rfl
  rw [hp]
  simp only [Entry.parseDoc, ht, hn]

/-- C10 witness: a fragment with numeric type and name "X" parses with
kind Draft. -/
theorem parse_nonstring_type_draft_witness :
    Entry.parse (some [Yaml.ymap [("name", Yaml.ystr "X"), ("type", Yaml.yint 3)]]) =
      some { name := "X", kind := EntryType.Draft, link := none,
             description := none, quote := none, cc := [] } :=
  parse_nonstring_type_draft [("name", Yaml.ystr "X"), ("type", Yaml.yint 3)]
    (Yaml.yint 3) "X" rfl (fun _ h => Yaml.noConfusion h) rfl

/-- C4: an input that fails to decode, decodes to no document, or whose
first document has no string name field yields no entry, and
Weekly::parse on it leaves the collection unchanged and signals no
error. -/
theorem malformed_fragment_noop (o : Option (List Yaml)) (w : Weekly)
    (h : ∀ docs doc, o = some docs → docs.head? = some doc →
      (doc.index "name").as_str = none) :
    Entry.parse o = none ∧ Weekly.parse w o = some w := by
  have hp : Entry.parse o = none := by
    cases o with
    | none => rfl
    | some docs =>
      cases docs with
      | nil => rfl
      | cons d ds =>
        have hd := h (d :: ds) d rfl rfl
        show Entry.parseDoc d = none
        simp only [Entry.parseDoc, hd]
  exact ⟨hp, by simp [Weekly.parse, hp]⟩

/-- C4 witness: a fragment with only a description field is absorbed
with no change to a one-entry collection. -/
theorem malformed_fragment_noop_witness :
    Entry.parse (some [Yaml.ymap [("description", Yaml.ystr "x")]]) = none ∧
    Weekly.parse [("X", { name := "X", kind := EntryType.Draft, link := none,
                          description := none, quote := none, cc := [] })]
      (some [Yaml.ymap [("description", Yaml.ystr "x")]]) =
      some [("X", { name := "X", kind := EntryType.Draft, link := none,
                    description := none, quote := none, cc := [] })] :=
  malformed_fragment_noop (some [Yaml.ymap [("description", Yaml.ystr "x")]])
    [("X", { name := "X", kind := EntryType.Draft, link := none,
             description := none, quote := none, cc := [] })]
    (by rintro docs doc h1 h2; cases h1; cases h2; rfl)

/-- C7: merging a same-named entry succeeds and appends the collaborators
of other after those of self, preserving order and duplicates. -/
theorem merge_cc_order (e1 e2 : Entry) (h : e1.name = e2.name) :
    Entry.mergeChecked e1 e2 = some (Entry.merge e1 e2) ∧
    (Entry.merge e1 e2).cc = e1.cc ++ e2.cc :=
  ⟨by simp [Entry.mergeChecked, h], rfl⟩

/-- C7 witness: merging cc [a, b] with cc [c] yields [a, b, c]. -/
theorem merge_cc_order_witness :
    Entry.mergeChecked
        { name := "X", kind := EntryType.Draft, link := none,
          description := none, quote := none, cc := ["a", "b"] }
        { name := "X", kind := EntryType.Topic, link := none,
          description := none, quote := none, cc := ["c"] } =
      some (Entry.merge
        { name := "X", kind := EntryType.Draft, link := none,
          description := none, quote := none, cc := ["a", "b"] }
        { name := "X", kind := EntryType.Topic, link := none,
          description := none, quote := none, cc := ["c"] }) ∧
    (Entry.merge
        { name := "X", kind := EntryType.Draft, link := none,
          description := none, quote := none, cc := ["a", "b"] }
        { name := "X", kind := EntryType.Topic, link := none,
          description := none, quote := none, cc := ["c"] }).cc = ["a", "b", "c"] :=
  merge_cc_order _ _ rfl

/-- Helper: a successful association-list lookup exhibits a member pair. -/
theorem lookup_mem {w : List (String × Entry)} {k : String} {v : Entry}
    (h : w.lookup k = some v) : (k, v) ∈ w := by
  induction w with
  | nil => simp [List.lookup] at h
  | cons p t ih =>
    obtain ⟨a, b⟩ := p
    by_cases hk : k = a
    · subst hk
      simp [List.lookup] at h
      subst h
      exact List.mem_cons_self _ _
    · have hb : (k == a) = false := beq_false_of_ne hk
      rw [List.lookup, hb] at h
      exact List.mem_cons_of_mem _ (ih h)

/-- Helper invariant: every reachable Weekly maps each stored key to an
entry whose name equals that key. -/
theorem reachable_invariant {w : Weekly} (h : Weekly.Reachable w) :
    ∀ p ∈ w, p.2.name = p.1 := by
  induction h with
  | new => intro p hp; simp [Weekly.new] at hp
  | step w docs w' _ hp ih =>
    intro q hq
    cases he : Entry.parse docs with
    | none =>
      simp only [Weekly.parse, he] at hp
      injection hp with hp
      subst hp
      exact ih q hq
    | some e =>
      cases hl : w.lookup e.name with
      | none =>
        simp only [Weekly.parse, he, hl] at hp
        injection hp with hp
        subst hp
        rcases List.mem_cons.1 hq with hq | hq
        · subst hq; rfl
        · exact ih q hq
      | some ent =>
        have hname : ent.name = e.name := ih (e.name, ent) (lookup_mem hl)
        have hmc : Entry.mergeChecked ent e = some (Entry.merge ent e) := by
          simp [Entry.mergeChecked, hname]
        simp only [Weekly.parse, he, hl, hmc] at hp
        injection hp with hp
        subst hp
        simp only [Weekly.update] at hq
        obtain ⟨r, hr2, hmap⟩ := List.mem_map.1 hq
        by_cases hc : r.1 = e.name
        · rw [if_pos hc] at hmap
          subst hmap
          show (Entry.merge ent e).name = e.name
          rw [Entry.merge] at *
          exact hname
        · rw [if_neg hc] at hmap
          subst hmap
          exact ih r hr2

/-- C9: in every Weekly reachable from Weekly::new by Weekly::parse
calls, each key maps to an entry whose name equals the key, and merge
never changes the name of the stored entry. -/
theorem weekly_key_name_invariant (w : Weekly) (h : Weekly.Reachable w) :
    (∀ k ent, w.lookup k = some ent → ent.name = k) ∧
    (∀ a b : Entry, (Entry.merge a b).name = a.name) :=
  ⟨fun k ent hl => reachable_invariant h (k, ent) (lookup_mem hl), fun _ _ => rfl⟩

/-- C9 witness: after ingesting a fragment named X into a fresh Weekly,
the entry stored under key X is named X. -/
theorem weekly_key_name_invariant_witness :
    ({ name := "X", kind := EntryType.Draft, link := none, description := none,
       quote := none, cc := [] } : Entry).name = "X" :=
  (weekly_key_name_invariant
    [("X", { name := "X", kind := EntryType.Draft, link := none, description := none,
             quote := none, cc := [] })]
    (Weekly.Reachable.step Weekly.new (some [Yaml.ymap [("name", Yaml.ystr "X")]]) _
      Weekly.Reachable.new rfl)).1 "X" _ rfl

/-- C5: on any reachable Weekly, whenever Weekly::parse reaches the
merge call the name-equality precondition holds, so the assertion never
fires and parse always returns a state (the panic branch is
unreachable). -/
theorem merge_assert_unreachable (w : Weekly) (h : Weekly.Reachable w)
    (docs : Option (List Yaml)) :
    (∀ e ent, Entry.parse docs = some e → w.lookup e.name = some ent →
      ent.name = e.name) ∧
    (Weekly.parse w docs).isSome = true := by
  have hpre : ∀ e ent, Entry.parse docs = some e → w.lookup e.name = some ent →
      ent.name = e.name :=
    fun e ent _ hl => reachable_invariant h (e.name, ent) (lookup_mem hl)
  refine ⟨hpre, ?_⟩
  cases he : Entry.parse docs with
  | none => simp [Weekly.parse, he]
  | some e =>
    cases hl : w.lookup e.name with
    | none => simp [Weekly.parse, he, hl]
    | some ent =>
      have hmc : Entry.mergeChecked ent e = some (Entry.merge ent e) := by
        simp [Entry.mergeChecked, hpre e ent he hl]
      simp [Weekly.parse, he, hl, hmc]

/-- C5 witness: parsing from the empty collection panics on nothing. -/
theorem merge_assert_unreachable_witness :
    (Weekly.parse Weekly.new none).isSome = true :=
  (merge_assert_unreachable Weekly.new Weekly.Reachable.new none).2

/-- C6: ingesting three fragments that parse to same-named entries with
descriptions d1, d2, d3 in order into a fresh Weekly stores an entry
whose description is the concatenation d1 ++ d2 ++ d3, in that order,
with no inserted separators. -/
theorem ingest_three_descriptions (o1 o2 o3 : Option (List Yaml))
    (e1 e2 e3 : Entry) (d1 d2 d3 : String)
    (h1 : Entry.parse o1 = some e1) (h2 : Entry.parse o2 = some e2)
    (h3 : Entry.parse o3 = some e3)
    (hn2 : e2.name = e1.name) (hn3 : e3.name = e1.name)
    (hd1 : e1.description = some d1) (hd2 : e2.description = some d2)
    (hd3 : e3.description = some d3) :
    ((Weekly.parse Weekly.new o1).bind (fun w1 =>
      (Weekly.parse w1 o2).bind (fun w2 =>
        (Weekly.parse w2 o3).bind (fun w3 =>
          w3.lookup e1.name)))).map Entry.description =
      some (some (d1 ++ d2 ++ d3)) := by
  have hw1 : Weekly.parse Weekly.new o1 = some [(e1.name, e1)] := by
    simp [Weekly.parse, h1, Weekly.new]
  have hw2 : Weekly.parse [(e1.name, e1)] o2 =
      some [(e1.name, Entry.merge e1 e2)] := by
    simp [Weekly.parse, h2, hn2, Entry.mergeChecked, Weekly.update, List.lookup]
  have hw3 : Weekly.parse [(e1.name, Entry.merge e1 e2)] o3 =
      some [(e1.name, Entry.merge (Entry.merge e1 e2) e3)] := by
    simp [Weekly.parse, h3, hn3, Entry.mergeChecked, Weekly.update, List.lookup,
      Entry.merge]
  rw [hw1]
  simp only [Option.some_bind]
  rw [hw2]
  simp only [Option.some_bind]
  rw [hw3]
  simp only [Option.some_bind]
  simp [List.lookup, Entry.merge, Entry.field_append, hd1, hd2, hd3]

/-- C6 witness: fragments named X with descriptions "a", "b", "c" merge
to description "abc". -/
theorem ingest_three_descriptions_witness :
    ((Weekly.parse Weekly.new
        (some [Yaml.ymap [("name", Yaml.ystr "X"), ("description", Yaml.ystr "a")]])).bind
      (fun w1 =>
        (Weekly.parse w1
          (some [Yaml.ymap [("name", Yaml.ystr "X"), ("description", Yaml.ystr "b")]])).bind
        (fun w2 =>
          (Weekly.parse w2
            (some [Yaml.ymap [("name", Yaml.ystr "X"), ("description", Yaml.ystr "c")]])).bind
          (fun w3 => w3.lookup "X")))).map Entry.description =
      some (some ("a" ++ "b" ++ "c")) :=
  ingest_three_descriptions
    (some [Yaml.ymap [("name", Yaml.ystr "X"), ("description", Yaml.ystr "a")]])
    (some [Yaml.ymap [("name", Yaml.ystr "X"), ("description", Yaml.ystr "b")]])
    (some [Yaml.ymap [("name", Yaml.ystr "X"), ("description", Yaml.ystr "c")]])
    { name := "X", kind := EntryType.Draft, link := none,
      description := some "a", quote := none, cc := [] }
    { name := "X", kind := EntryType.Draft, link := none,
      description := some "b", quote := none, cc := [] }
    { name := "X", kind := EntryType.Draft, link := none,
      description := some "c", quote := none, cc := [] }
    "a" "b" "c" rfl rfl rfl rfl rfl rfl rfl rfl

/-- Helper: concatenation of a chunk list. -/
def concatChunks : List String → String
  | [] => ""
  | c :: cs => c ++ concatChunks cs

/-- Helper: writeAll over an appended list runs the first part, then the
second only when the first succeeded. -/
theorem writeAll_append (xs ys : List String) (s : Sink) :
    writeAll s (xs ++ ys) =
      match writeAll s xs with
      | (s1, none) => writeAll s1 ys
      | (s1, some err) => (s1, some err) := by
  induction xs generalizing s with
  | nil => rfl
  | cons c cs ih =>
    simp only [List.cons_append, writeAll]
    by_cases h : s.okAt s.idx
    · simp [h, ih]
    · simp [h]

/-- Helper: Weekly::render performs exactly the flattened write sequence
of its entries. -/
theorem weekly_render_eq_writeAll (w : Weekly) (s : Sink) :
    Weekly.render w s = writeAll s (Weekly.allWrites w) := by
  induction w generalizing s with
  | nil => rfl
  | cons p t ih =>
    obtain ⟨k, e⟩ := p
    have hAll : Weekly.allWrites ((k, e) :: t) = e.writes ++ Weekly.allWrites t := by
      simp [Weekly.allWrites]
    rw [hAll, writeAll_append]
    simp only [Weekly.render]
    rcases hr : writeAll s e.writes with ⟨s1, err⟩
    have hre : Entry.render e s = (s1, err) := hr
    rw [hre]
    cases err with
    | none => simp [ih]
    | some err => simp

/-- Helper: when every attempted write succeeds, writeAll appends every
chunk and reports no error. -/
theorem writeAll_ok (cs : List String) (s : Sink)
    (h : ∀ i, i < cs.length → s.okAt (s.idx + i) = true) :
    writeAll s cs =
      ({ okAt := s.okAt, idx := s.idx + cs.length,
         buf := s.buf ++ concatChunks cs }, none) := by
  induction cs generalizing s with
  | nil => simp [writeAll, concatChunks]
  | cons c cs ih =>
    have h0 : s.okAt s.idx = true := by simpa using h 0 (by simp)
    rw [writeAll, if_pos h0]
    have hs := ih { s with idx := s.idx + 1, buf := s.buf ++ c }
      (fun i hi => by
        have := h (i + 1) (by simpa using Nat.succ_lt_succ hi)
        simpa [Nat.add_assoc, Nat.add_comm 1 i] using this)
    rw [hs]
    simp only [concatChunks, List.length_cons]
    rw [String.append_assoc, Nat.add_assoc, Nat.add_comm 1 cs.length]

/-- Helper: when the first failing write is at offset i0, writeAll
appends exactly the chunks before it and reports IOErr. -/
theorem writeAll_fail (cs : List String) (s : Sink) (i0 : Nat)
    (hlt : i0 < cs.length) (hf : s.okAt (s.idx + i0) = false)
    (hok : ∀ i, i < i0 → s.okAt (s.idx + i) = true) :
    writeAll s cs =
      ({ okAt := s.okAt, idx := s.idx + i0,
         buf := s.buf ++ concatChunks (cs.take i0) }, some Error.IOErr) := by
  induction cs generalizing s i0 with
  | nil => exact absurd hlt (by simp)
  | cons c cs ih =>
    cases i0 with
    | zero =>
      have h0 : s.okAt s.idx = false := by simpa using hf
      rw [writeAll, if_neg (by simp [h0])]
      simp [concatChunks]
    | succ j =>
      have h0 : s.okAt s.idx = true := by simpa using hok 0 (Nat.succ_pos j)
      rw [writeAll, if_pos h0]
      have hs := ih { s with idx := s.idx + 1, buf := s.buf ++ c } j
        (by simpa using Nat.lt_of_succ_lt_succ hlt)
        (by
          have := hf
          simpa [Nat.add_assoc, Nat.add_comm 1 j] using this)
        (fun i hi => by
          have := hok (i + 1) (Nat.succ_lt_succ hi)
          simpa [Nat.add_assoc, Nat.add_comm 1 i] using this)
      rw [hs]
      simp only [List.take_succ_cons, concatChunks]
      rw [String.append_assoc, Nat.add_assoc, Nat.add_comm 1 j]

/-- C8: Weekly::render writes all chunks of all entries and returns
success when every write succeeds; when some write fails it returns
IOFailure at the first failing write, with exactly the earlier chunks
written (no rollback) and nothing after the failure rendered. -/
theorem render_stops_at_first_failure (w : Weekly) (s : Sink) :
    ((∀ i, i < (Weekly.allWrites w).length → s.okAt (s.idx + i) = true) →
      Weekly.render w s =
        ({ okAt := s.okAt, idx := s.idx + (Weekly.allWrites w).length,
           buf := s.buf ++ concatChunks (Weekly.allWrites w) }, none)) ∧
    (∀ i0, i0 < (Weekly.allWrites w).length → s.okAt (s.idx + i0) = false →
      (∀ i, i < i0 → s.okAt (s.idx + i) = true) →
      Weekly.render w s =
        ({ okAt := s.okAt, idx := s.idx + i0,
           buf := s.buf ++ concatChunks ((Weekly.allWrites w).take i0) },
         some Error.IOErr)) := by
  constructor
  · intro h
    rw [weekly_render_eq_writeAll]
    exact writeAll_ok _ _ h
  · intro i0 hlt hf hok
    rw [weekly_render_eq_writeAll]
    exact writeAll_fail _ _ _ hlt hf hok

/-- C8 witness: a one-entry collection renders fully on a perfect sink;
on a sink whose fourth write fails, a two-entry collection writes only
the first entry and reports IOErr. -/
theorem render_stops_at_first_failure_witness :
    Weekly.render
        [("Y", { name := "Y", kind := EntryType.Draft, link := none,
                 description := none, quote := none, cc := [] })]
        { okAt := fun _ => true, idx := 0, buf := "" } =
      ({ okAt := fun _ => true, idx := 3, buf := "- Y\n" }, none) ∧
    Weekly.render
        [("Y", { name := "Y", kind := EntryType.Draft, link := none,
                 description := none, quote := none, cc := [] }),
         ("Z", { name := "Z", kind := EntryType.Draft, link := none,
                 description := none, quote := none, cc := [] })]
        { okAt := fun n => n != 3, idx := 0, buf := "" } =
      ({ okAt := fun n => n != 3, idx := 3, buf := "- Y\n" }, some Error.IOErr) :=
  ⟨(render_stops_at_first_failure
      [("Y", { name := "Y", kind := EntryType.Draft, link := none,
               description := none, quote := none, cc := [] })]
      { okAt := fun _ => true, idx := 0, buf := "" }).1 (fun i _ => rfl),
   (render_stops_at_first_failure
      [("Y", { name := "Y", kind := EntryType.Draft, link := none,
               description := none, quote := none, cc := [] }),
       ("Z", { name := "Z", kind := EntryType.Draft, link := none,
               description := none, quote := none, cc := [] })]
      { okAt := fun n => n != 3, idx := 0, buf := "" }).2 3
     (by decide) (by decide) (by decide)⟩

/-- C2: the Entry named X with link http://a, description "did stuff",
quote "line1\nline2" and collaborators [bob] renders exactly the
expected Markdown block and succeeds whenever every write succeeds. -/
theorem render_scenario (k : EntryType) (s : Sink) (h : ∀ n, s.okAt n = true) :
    Entry.render
        { name := "X", kind := k, link := some "http://a",
          description := some "did stuff", quote := some "line1\nline2",
          cc := ["bob"] } s =
      ({ okAt := s.okAt, idx := s.idx + 6,
         buf := s.buf ++ "- [X](http://a), did stuff\n > line1\n > line2\n[@bob][bob]\n" },
       none) := by
  have hw : Entry.writes
      { name := "X", kind := k, link := some "http://a",
        description := some "did stuff", quote := some "line1\nline2",
        cc := ["bob"] } =
      ["- ", "[X](http://a)", ", did stuff\n", " > line1\n", " > line2\n",
       "[@bob][bob]\n"] := rfl
  have hc : concatChunks
      ["- ", "[X](http://a)", ", did stuff\n", " > line1\n", " > line2\n",
       "[@bob][bob]\n"] =
      "- [X](http://a), did stuff\n > line1\n > line2\n[@bob][bob]\n" := rfl
  simp only [Entry.render]
  rw [hw, writeAll_ok _ _ (fun i _ => h _), hc]
  rfl

/-- C2 witness: the scenario entry rendered to a fresh perfect sink
produces exactly the expected text. -/
theorem render_scenario_witness :
    Entry.render
        { name := "X", kind := EntryType.Draft, link := some "http://a",
          description := some "did stuff", quote := some "line1\nline2",
          cc := ["bob"] }
        { okAt := fun _ => true, idx := 0, buf := "" } =
      ({ okAt := fun _ => true, idx := 6,
         buf := "- [X](http://a), did stuff\n > line1\n > line2\n[@bob][bob]\n" },
       none) :=
  render_scenario EntryType.Draft { okAt := fun _ => true, idx := 0, buf := "" }
    (fun _ => rfl)

end WeeklyGen
